import Mathlib

/-!
Verification of the `custom-error-creator` library (`src/index.js`).

The JavaScript source is shallowly embedded: JS strings become Lean
`String`s (processed as `List Char`), JS objects become association
lists of own properties, and property lookup that consults the
prototype chain (`in`, `obj.key`) is modelled with an explicit list of
`Object.prototype` properties.  Throwing functions return `Except`.
Case mapping (`toLowerCase` / `toUpperCase`) is modelled for ASCII,
which is the alphabet all claims range over.
-/

deriving instance DecidableEq for Except

namespace CustomErrorCreator

/-- A JavaScript runtime value, covering the value kinds the library's
API surface manipulates.  `function` carries the string the value
coerces to; `ref` is an opaque object identity (e.g. an `Error` used as
a cause). -/
inductive JSVal where
  | undefined
  | null
  | boolean (b : Bool)
  | number (n : Int)
  | string (s : String)
  | function (descr : String)
  | ref (id : Nat)
deriving DecidableEq

/-- First-key-wins lookup in an association list, the semantics of own
property access on a JS object (objects never hold duplicate keys, so
any total order of traversal agrees). -/
def objLookup {α : Type} : List (String × α) → String → Option α
  | [], _ => none
  | (k', v) :: rest, k => if k' = k then some v else objLookup rest k

/-- A plain JS object: its own enumerable properties. -/
structure JSObj where
  pairs : List (String × JSVal)
deriving DecidableEq

/-- The properties a plain object literal inherits from
`Object.prototype`, paired with the string each value coerces to
(V8's rendering).  Used to model the `in` operator and property gets,
which consult the prototype chain. -/
def protoProps : List (String × JSVal) :=
  [ ("constructor", JSVal.function ("function Object() \x7b [native code] \x7d"))
  , ("hasOwnProperty", JSVal.function ("function hasOwnProperty() \x7b [native code] \x7d"))
  , ("isPrototypeOf", JSVal.function ("function isPrototypeOf() \x7b [native code] \x7d"))
  , ("propertyIsEnumerable", JSVal.function ("function propertyIsEnumerable() \x7b [native code] \x7d"))
  , ("toLocaleString", JSVal.function ("function toLocaleString() \x7b [native code] \x7d"))
  , ("toString", JSVal.function ("function toString() \x7b [native code] \x7d"))
  , ("valueOf", JSVal.function ("function valueOf() \x7b [native code] \x7d"))
  , ("__defineGetter__", JSVal.function ("function __defineGetter__() \x7b [native code] \x7d"))
  , ("__defineSetter__", JSVal.function ("function __defineSetter__() \x7b [native code] \x7d"))
  , ("__lookupGetter__", JSVal.function ("function __lookupGetter__() \x7b [native code] \x7d"))
  , ("__lookupSetter__", JSVal.function ("function __lookupSetter__() \x7b [native code] \x7d"))
  , ("__proto__", JSVal.ref 0) ]

/-- The JS `in` operator on a plain object: own properties or
properties inherited from `Object.prototype`. -/
def jsHas (o : JSObj) (k : String) : Bool :=
  (objLookup o.pairs k).isSome || (objLookup protoProps k).isSome

/-- Property get (`o[k]` / `o.k`) on a plain object: own property,
else inherited from `Object.prototype`, else `undefined`. -/
def jsGetProp (o : JSObj) (k : String) : JSVal :=
  match objLookup o.pairs k with
  | some v => v
  | none =>
    match objLookup protoProps k with
    | some v => v
    | none => JSVal.undefined

/-- JS ToString coercion, as applied by `String.prototype.replace` to
the value returned from a replacement function. -/
def jsToString : JSVal → String
  | JSVal.undefined => "undefined"
  | JSVal.null => "null"
  | JSVal.boolean b => if b then ("true") else ("false")
  | JSVal.number n => toString n
  | JSVal.string s => s
  | JSVal.function d => d
  | JSVal.ref _ => "[object Object]"

/-- A `\w` character of the placeholder regex `/\{(\w+)\}/g`:
ASCII letter, digit, or underscore. -/
def isWordChar (c : Char) : Bool :=
  c.isAlpha || c.isDigit || c = '_'

/-- One left-to-right pass of the matcher for `/\{(\w+)\}/g`,
collecting the placeholder names in order.  The second argument is the
scanner state: `none` when outside a candidate placeholder, `some acc`
when a `{` has been seen and `acc` holds the word characters read so
far (in reverse).  A match only ever begins at a `{`, so on failure the
scan resumes in the outside state (or at the failing `{` itself),
exactly as the regex engine's advance-by-one rescans do. -/
def scanA : List Char → Option (List Char) → List (List Char)
  | [], _ => []
  | c :: rest, none =>
    if c = '{' then scanA rest (some []) else scanA rest none
  | c :: rest, some acc =>
    if c = '}' then
      if acc = [] then scanA rest none else acc.reverse :: scanA rest none
    else if c = '{' then scanA rest (some [])
    else if isWordChar c then scanA rest (some (c :: acc))
    else scanA rest none

/-- Placeholder names of a message template, in match order
(`message.matchAll(/\{(\w+)\}/g)` in `validateMessage`). -/
def scanPlaceholders (s : String) : List (List Char) :=
  scanA s.data none

/-- The body of `template.replace(/\{(\w+)\}/g, (match, key) => key in
params ? params[key] : match)`, same scanner as `scanA` but rebuilding the
output: a matched placeholder whose key passes the `in` test is
replaced by the (stringified) property value, any other text is kept
verbatim. -/
def interpA (p : JSObj) : List Char → Option (List Char) → List Char
  | [], none => []
  | [], some acc => '{' :: acc.reverse
  | c :: rest, none =>
    if c = '{' then interpA p rest (some []) else c :: interpA p rest none
  | c :: rest, some acc =>
    if c = '}' then
      if acc = [] then '{' :: '}' :: interpA p rest none
      else
        if jsHas p acc.reverse.asString then
          (jsToString (jsGetProp p acc.reverse.asString)).data ++ interpA p rest none
        else '{' :: acc.reverse ++ '}' :: interpA p rest none
    else if c = '{' then '{' :: acc.reverse ++ interpA p rest (some [])
    else if isWordChar c then interpA p rest (some (c :: acc))
    else '{' :: acc.reverse ++ c :: interpA p rest none

/-- The function `interpolate(template, params)` from `src/index.js`. -/
def interpolate (template : String) (p : JSObj) : String :=
  (interpA p template.data none).asString

/-- ASCII case mapping of `String.prototype.toLowerCase` (the claims
only range over ASCII codes). -/
def jsToLower (c : Char) : Char :=
  match c with
  | 'A' => 'a' | 'B' => 'b' | 'C' => 'c' | 'D' => 'd' | 'E' => 'e'
  | 'F' => 'f' | 'G' => 'g' | 'H' => 'h' | 'I' => 'i' | 'J' => 'j'
  | 'K' => 'k' | 'L' => 'l' | 'M' => 'm' | 'N' => 'n' | 'O' => 'o'
  | 'P' => 'p' | 'Q' => 'q' | 'R' => 'r' | 'S' => 's' | 'T' => 't'
  | 'U' => 'u' | 'V' => 'v' | 'W' => 'w' | 'X' => 'x' | 'Y' => 'y'
  | 'Z' => 'z'
  | d => d

/-- ASCII case mapping of `String.prototype.toUpperCase`. -/
def jsToUpper (c : Char) : Char :=
  match c with
  | 'a' => 'A' | 'b' => 'B' | 'c' => 'C' | 'd' => 'D' | 'e' => 'E'
  | 'f' => 'F' | 'g' => 'G' | 'h' => 'H' | 'i' => 'I' | 'j' => 'J'
  | 'k' => 'K' | 'l' => 'L' | 'm' => 'M' | 'n' => 'N' | 'o' => 'O'
  | 'p' => 'P' | 'q' => 'Q' | 'r' => 'R' | 's' => 'S' | 't' => 'T'
  | 'u' => 'U' | 'v' => 'V' | 'w' => 'W' | 'x' => 'X' | 'y' => 'Y'
  | 'z' => 'Z'
  | d => d

/-- The split `str.split("_")`: maximal runs between underscores, with empty
runs kept (`"".split("_")` is `[""]`). -/
def jsSplit : List Char → List (List Char)
  | [] => [[]]
  | c :: rest =>
    if c = '_' then [] :: jsSplit rest
    else
      match jsSplit rest with
      | [] => [[c]]
      | w :: ws => (c :: w) :: ws

/-- Capitalization `word.charAt(0).toUpperCase() + word.slice(1)` (on the empty word
both halves are empty). -/
def capFirst : List Char → List Char
  | [] => []
  | c :: rest => jsToUpper c :: rest

/-- The function `toPascalCase` from `src/index.js`: lowercase the whole code,
split on `_`, capitalize each word, join with no separator. -/
def toPascalCase (s : String) : String :=
  (((jsSplit (s.data.map jsToLower)).map capFirst).flatten).asString

/-- Name derivation as the spec words it: split the code on
underscore, lowercase each segment, uppercase each segment's first
character, concatenate with no separator. -/
def pascalCaseSpec (s : String) : String :=
  (((jsSplit s.data).map (fun w => capFirst (w.map jsToLower))).flatten).asString

/-- A definition `{code, message, status}`, the input of `createErrorClass`. -/
structure ErrorDefinition where
  code : String
  message : String
  status : Int
deriving DecidableEq

/-- The reserved placeholder name, `RESERVED_PARAMS = new Set(["cause"])`. -/
def causeChars : List Char := ['c', 'a', 'u', 's', 'e']

/-- The reserved key as a string. -/
def causeKey : String := "cause"

/-- The check of `validateMessage`: it throws iff some placeholder of the template is
named `cause`. -/
def reservedInMessage (m : String) : Bool :=
  decide (causeChars ∈ scanPlaceholders m)

/-- The class value returned by `createErrorClass`: its own static
properties (the factory defines only `name`, via
`Object.defineProperty(ErrorKlass, "name", ...)`; `code`, `status` and
`name` on line 35-37 are instance fields), plus the captured
definition used by the constructor closure. -/
structure ErrorFamily where
  staticProps : List (String × String)
  defn : ErrorDefinition
deriving DecidableEq

/-- The family `createErrorClass` builds for a valid definition. -/
def mkErrorFamily (d : ErrorDefinition) : ErrorFamily :=
  { staticProps := [("name", toPascalCase d.code)], defn := d }

/-- The factory `createErrorClass(definition)`: validates the default message
(throwing a definition error if it uses the reserved placeholder),
then returns the class. -/
def createErrorClass (d : ErrorDefinition) : Except String ErrorFamily :=
  if reservedInMessage d.message then
    Except.error ("Error definition uses reserved parameter name in message template")
  else
    Except.ok (mkErrorFamily d)

/-- A positional constructor argument as the disambiguation code sees
it (`typeof x === "string"`, `typeof x === "object" && x !== null`). -/
inductive JSArg where
  | undefined
  | null
  | boolean (b : Bool)
  | number (n : Int)
  | string (s : String)
  | object (o : JSObj)
deriving DecidableEq

/-- One constructed error: the interpolated message, the own `cause`
property installed by `super(message, {cause})` (absent when the
options argument to `super` was `undefined`), and the instance fields
`code`, `status`, `name`. -/
structure ErrorInstance where
  message : String
  causeProp : Option JSVal
  code : String
  status : Int
  name : String
deriving DecidableEq

/-- Optional chaining `x?.cause`: it is `undefined` on `null`/`undefined`,
a (prototype-consulting) property get on objects, and `undefined` on
other primitives (boxing finds no `cause`). -/
def optChainCause : JSArg → JSVal
  | JSArg.object o => jsGetProp o causeKey
  | _ => JSVal.undefined

/-- The constructor body of the class returned by `createErrorClass`
(lines 39-73 of `src/index.js`), resolving the three positional
arguments into a message, an optional parameter object and a cause,
then building the instance.  The only way it can throw is `opts.cause`
when `opts` is `null` (a `TypeError`); every other input constructs an
instance. -/
def ErrorFamily.newInstance (f : ErrorFamily) (a1 a2 a3 : JSArg) :
    Except String ErrorInstance :=
  let message := match a1 with
    | JSArg.string s => s
    | _ => f.defn.message
  let resolved : Except String (Option JSObj × JSVal) :=
    match a1 with
    | JSArg.object o1 =>
      -- First arg is params object: new Err(params) or new Err(params, opts)
      Except.ok (some o1, optChainCause a2)
    | _ =>
      match a2 with
      | JSArg.object o2 =>
        match a3 with
        | JSArg.undefined =>
          if jsHas o2 causeKey then
            -- Has cause key: extract it, use remaining keys as params
            let rest := o2.pairs.filter (fun p => p.1 ≠ causeKey)
            Except.ok (if rest.isEmpty then none else some ⟨rest⟩,
                       jsGetProp o2 causeKey)
          else
            -- Pure params object
            Except.ok (some o2, JSVal.undefined)
        | JSArg.null =>
          Except.error ("TypeError: Cannot read properties of null")
        | JSArg.object o3 =>
          -- Three-arg form: new Err(msg, params, opts)
          Except.ok (some o2, jsGetProp o3 causeKey)
        | _ =>
          -- Primitive opts: property get on a boxed primitive is undefined
          Except.ok (some o2, JSVal.undefined)
      | _ => Except.ok (none, JSVal.undefined)
  resolved.map fun pc =>
    { message := match pc.1 with
        | some p => interpolate message p
        | none => message
      causeProp := if pc.2 = JSVal.undefined then none else some pc.2
      code := f.defn.code
      status := f.defn.status
      name := toPascalCase f.defn.code }

/-- Assignment `classes[key] = v`: JS property assignment overwrites an existing
key in place and otherwise appends. -/
def objInsert {α : Type} : List (String × α) → String → α → List (String × α)
  | [], k, v => [(k, v)]
  | (k', v') :: rest, k, v =>
    if k' = k then (k', v) :: rest else (k', v') :: objInsert rest k v

/-- The batch-construction loop, parameterized by the function that
keys the result object. -/
def createClassesKeyed (key : ErrorDefinition → String)
    (acc : List (String × ErrorFamily)) :
    List ErrorDefinition → Except String (List (String × ErrorFamily))
  | [] => Except.ok acc
  | d :: rest => do
    let fam ← createErrorClass d
    createClassesKeyed key (objInsert acc (key d) fam) rest

/-- The function `createErrorClasses(definitions)` from `src/index.js`: one family
per definition, collected into an object keyed by `def.code`. -/
def createErrorClasses (defs : List ErrorDefinition) :
    Except String (List (String × ErrorFamily)) :=
  createClassesKeyed (fun d => d.code) [] defs

/-- Modelled from the spec: the name-keyed batch variant
(`createErrorClassesByName`), whose implementation is not among the
source files (only its tests, type declarations and README document
it).  Per the spec it builds one family per definition and keys the
returned mapping by the derived PascalCase name, later entries
overwriting earlier ones. -/
def createErrorClassesByName (defs : List ErrorDefinition) :
    Except String (List (String × ErrorFamily)) :=
  createClassesKeyed (fun d => toPascalCase d.code) [] defs

/-- The last definition in the list whose key (under `key`) is `c` —
the definition whose family a left-to-right overwriting build leaves
in the result. -/
def lastWith (key : ErrorDefinition → String) (c : String) :
    List ErrorDefinition → Option ErrorDefinition
  | [] => none
  | d :: rest =>
    match lastWith key c rest with
    | some d' => some d'
    | none => if key d = c then some d else none

/-- An arbitrary JS value as `isCustomError` sees it: possibly an
object, which may or may not be an `Error` instance (`instanceof
Error`), with its own properties. -/
structure JSObjectV where
  isError : Bool
  props : List (String × JSVal)
deriving DecidableEq

/-- Input domain of `isCustomError`. -/
inductive JSEntity where
  | undefined
  | null
  | boolean (b : Bool)
  | number (n : Int)
  | string (s : String)
  | object (o : JSObjectV)
deriving DecidableEq

/-- The predicate `isCustomError(error)` from `src/index.js`:
`error instanceof Error && typeof error.code === "string" && typeof
error.status === "number"` (neither `Error.prototype` nor
`Object.prototype` provides `code` or `status`, so the gets resolve to
own properties). -/
def isCustomError : JSEntity → Bool
  | JSEntity.object o =>
    o.isError &&
    (match objLookup o.props ("code") with
     | some (JSVal.string _) => true
     | _ => false) &&
    (match objLookup o.props ("status") with
     | some (JSVal.number _) => true
     | _ => false)
  | _ => false

/-- View an instance built by a family as a value to test with
`isCustomError`: it is an `Error` with string `code` and numeric
`status` own fields. -/
def ErrorInstance.toEntity (i : ErrorInstance) : JSEntity :=
  JSEntity.object
    { isError := true
    , props := [ ("code", JSVal.string i.code)
               , ("status", JSVal.number i.status)
               , ("name", JSVal.string i.name)
               , ("message", JSVal.string i.message) ] }

/-- The Interpolator as the spec words it (§4.4): a pure function over
a string-to-string mapping, replacing exactly the `{name}` occurrences
whose name is a key of the mapping and leaving the rest untouched.
Same scanner as the source's `interpolate`, but key membership is
plain (own-)key membership in the mapping. -/
def interpOwnA (m : List (String × String)) : List Char → Option (List Char) → List Char
  | [], none => []
  | [], some acc => '{' :: acc.reverse
  | c :: rest, none =>
    if c = '{' then interpOwnA m rest (some []) else c :: interpOwnA m rest none
  | c :: rest, some acc =>
    if c = '}' then
      if acc = [] then '{' :: '}' :: interpOwnA m rest none
      else
        match objLookup m acc.reverse.asString with
        | some v => v.data ++ interpOwnA m rest none
        | none => '{' :: acc.reverse ++ '}' :: interpOwnA m rest none
    else if c = '{' then '{' :: acc.reverse ++ interpOwnA m rest (some [])
    else if isWordChar c then interpOwnA m rest (some (c :: acc))
    else '{' :: acc.reverse ++ c :: interpOwnA m rest none

/-- Spec-worded interpolation over a string-to-string mapping. -/
def interpolateSpec (template : String) (m : List (String × String)) : String :=
  (interpOwnA m template.data none).asString

/-- A string-to-string mapping as the JS object the caller passes. -/
def liftObj (m : List (String × String)) : JSObj :=
  ⟨m.map (fun p => (p.1, JSVal.string p.2))⟩

/-- The literal character run `{cause}` whose presence in a template is
equivalent to `validateMessage` throwing. -/
def causePattern : List Char := '{' :: (causeChars ++ ['}'])

theorem isWordChar_lbrace : isWordChar '{' = false := by decide

theorem isWordChar_rbrace : isWordChar '}' = false := by decide

theorem causeChars_allWord : ∀ c ∈ causeChars, isWordChar c = true := by decide

/-- An occurrence of `{cause}` cannot start inside a run of word
characters, so it survives skipping such a run. -/
theorem causePattern_infix_append_word (w : List Char)
    (hw : ∀ c ∈ w, isWordChar c = true) (l : List Char) :
    causePattern <:+: w ++ l ↔ causePattern <:+: l := by
  induction w with
  | nil => simp
  | cons a w' ih =>
    have ha : isWordChar a = true := hw a (List.mem_cons_self a w')
    have hw' : ∀ c ∈ w', isWordChar c = true :=
      fun c hc => hw c (List.mem_cons_of_mem a hc)
    constructor
    · intro h
      rcases List.infix_cons_iff.mp h with hpre | hinf
      · rcases List.cons_prefix_cons.mp hpre with ⟨heq, -⟩
        rw [← heq] at ha
        simp [isWordChar_lbrace] at ha
      · exact (ih hw').mp hinf
    · intro h
      exact List.infix_cons ((ih hw').mpr h)

/-- A prefix of the form `word}` cannot cross a character that is
neither a word character nor `}`. -/
theorem no_prefix_across_stop (u : List Char) :
    ∀ (w : List Char) (c : Char) (t : List Char),
    (∀ x ∈ u, isWordChar x = true) → (∀ x ∈ w, isWordChar x = true) →
    isWordChar c = false → c ≠ '}' →
    ¬ ((u ++ ['}']) <+: (w ++ c :: t)) := by
  induction u with
  | nil =>
    intro w c t _ hw hc hcne hpre
    cases w with
    | nil =>
      rcases List.cons_prefix_cons.mp hpre with ⟨heq, -⟩
      exact hcne heq.symm
    | cons b w' =>
      rcases List.cons_prefix_cons.mp hpre with ⟨heq, -⟩
      have := hw b (List.mem_cons_self b w')
      rw [← heq] at this
      simp [isWordChar_rbrace] at this
  | cons a u' ih =>
    intro w c t hu hw hc hcne hpre
    cases w with
    | nil =>
      rcases List.cons_prefix_cons.mp hpre with ⟨heq, -⟩
      have := hu a (List.mem_cons_self a u')
      rw [heq] at this
      simp [this] at hc
    | cons b w' =>
      rcases List.cons_prefix_cons.mp hpre with ⟨-, hrest⟩
      exact ih w' c t (fun x hx => hu x (List.mem_cons_of_mem a hx))
        (fun x hx => hw x (List.mem_cons_of_mem b hx)) hc hcne hrest

/-- A run `word₁}` is a prefix of `word₂}...` exactly when the two words are
equal. -/
theorem prefix_word_stop (u : List Char) :
    ∀ (w rest : List Char),
    (∀ x ∈ u, isWordChar x = true) → (∀ x ∈ w, isWordChar x = true) →
    ((u ++ ['}']) <+: (w ++ '}' :: rest) ↔ u = w) := by
  induction u with
  | nil =>
    intro w rest _ hw
    cases w with
    | nil => simp [List.cons_prefix_cons]
    | cons b w' =>
      constructor
      · intro hpre
        rcases List.cons_prefix_cons.mp hpre with ⟨heq, -⟩
        have := hw b (List.mem_cons_self b w')
        rw [← heq] at this
        simp [isWordChar_rbrace] at this
      · intro h; simp at h
  | cons a u' ih =>
    intro w rest hu hw
    cases w with
    | nil =>
      constructor
      · intro hpre
        rcases List.cons_prefix_cons.mp hpre with ⟨heq, -⟩
        have := hu a (List.mem_cons_self a u')
        rw [heq] at this
        simp [isWordChar_rbrace] at this
      · intro h; simp at h
    | cons b w' =>
      constructor
      · intro hpre
        rcases List.cons_prefix_cons.mp hpre with ⟨hab, hrest⟩
        have := (ih w' rest (fun x hx => hu x (List.mem_cons_of_mem a hx))
          (fun x hx => hw x (List.mem_cons_of_mem b hx))).mp hrest
        rw [hab, this]
      · intro h
        injection h with h1 h2
        exact List.cons_prefix_cons.mpr ⟨h1, (ih w' rest
          (fun x hx => hu x (List.mem_cons_of_mem a hx))
          (fun x hx => hw x (List.mem_cons_of_mem b hx))).mpr h2⟩

/-- A candidate placeholder `{word}` matches the reserved pattern
exactly when the word is `cause`; otherwise any occurrence lies beyond
the closing brace. -/
theorem causePattern_infix_word_close (w rest : List Char)
    (hw : ∀ c ∈ w, isWordChar c = true) :
    causePattern <:+: ('{' :: (w ++ '}' :: rest)) ↔
      w = causeChars ∨ causePattern <:+: rest := by
  constructor
  · intro h
    rcases List.infix_cons_iff.mp h with hpre | hinf
    · have hp : ('{' :: (causeChars ++ ['}'])) <+: ('{' :: (w ++ '}' :: rest)) := hpre
      rcases List.cons_prefix_cons.mp hp with ⟨-, hrest⟩
      left
      exact ((prefix_word_stop causeChars w rest causeChars_allWord hw).mp hrest).symm
    · right
      have h2 := (causePattern_infix_append_word w hw ('}' :: rest)).mp hinf
      rcases List.infix_cons_iff.mp h2 with hpre2 | hinf2
      · have hp2 : ('{' :: (causeChars ++ ['}'])) <+: ('}' :: rest) := hpre2
        rcases List.cons_prefix_cons.mp hp2 with ⟨heq, -⟩
        exact absurd heq (by decide)
      · exact hinf2
  · intro h
    rcases h with heq | hinf
    · subst heq
      exact ⟨[], rest, by simp [causePattern]⟩
    · exact List.infix_cons
        ((causePattern_infix_append_word w hw ('}' :: rest)).mpr (List.infix_cons hinf))

/-- The scanner finds a placeholder named `cause` exactly when the
template contains the character run `{cause}` (stated simultaneously
for both scanner states). -/
theorem scanA_cause_iff (l : List Char) :
    (causeChars ∈ scanA l none ↔ causePattern <:+: l) ∧
    (∀ acc, (∀ c ∈ acc, isWordChar c = true) →
      (causeChars ∈ scanA l (some acc) ↔
        causePattern <:+: ('{' :: (acc.reverse ++ l)))) := by
  induction l with
  | nil =>
    constructor
    · constructor
      · intro h; simp [scanA] at h
      · intro h
        have h2 := h.subset (show '{' ∈ causePattern by decide)
        simp at h2
    · intro acc hacc
      constructor
      · intro h; simp [scanA] at h
      · intro h
        exfalso
        have hmem : '}' ∈ '{' :: (acc.reverse ++ ([] : List Char)) :=
          h.subset (by decide)
        rcases List.mem_cons.mp hmem with h1 | h1
        · exact absurd h1 (by decide)
        · rw [List.append_nil] at h1
          have := hacc '}' (List.mem_reverse.mp h1)
          simp [isWordChar_rbrace] at this
  | cons c rest ih =>
    obtain ⟨ihn, ihs⟩ := ih
    constructor
    · by_cases hc : c = '{'
      · subst hc
        rw [show scanA ('{' :: rest) none = scanA rest (some []) by simp [scanA]]
        rw [ihs [] (by simp)]
        simp
      · rw [show scanA (c :: rest) none = scanA rest none by simp [scanA, hc]]
        rw [ihn]
        constructor
        · intro h; exact List.infix_cons h
        · intro h
          rcases List.infix_cons_iff.mp h with hpre | hinf
          · have hp : ('{' :: (causeChars ++ ['}'])) <+: (c :: rest) := hpre
            rcases List.cons_prefix_cons.mp hp with ⟨heq, -⟩
            exact absurd heq.symm hc
          · exact hinf
    · intro acc hacc
      have ww : ∀ x ∈ acc.reverse, isWordChar x = true :=
        fun x hx => hacc x (List.mem_reverse.mp hx)
      by_cases h1 : c = '}'
      · subst h1
        by_cases h2 : acc = []
        · subst h2
          rw [show scanA ('}' :: rest) (some []) = scanA rest none by simp [scanA]]
          rw [ihn]
          simp only [List.reverse_nil, List.nil_append]
          constructor
          · intro h; exact List.infix_cons (List.infix_cons h)
          · intro h
            rcases List.infix_cons_iff.mp h with hpre | hinf
            · have hp : ('{' :: (causeChars ++ ['}'])) <+: ('{' :: ('}' :: rest)) := hpre
              rcases List.cons_prefix_cons.mp hp with ⟨-, hrest⟩
              have hq : ('c' :: (['a', 'u', 's', 'e'] ++ ['}'])) <+: ('}' :: rest) := hrest
              rcases List.cons_prefix_cons.mp hq with ⟨heq, -⟩
              exact absurd heq (by decide)
            · rcases List.infix_cons_iff.mp hinf with hpre2 | hinf2
              · have hp2 : ('{' :: (causeChars ++ ['}'])) <+: ('}' :: rest) := hpre2
                rcases List.cons_prefix_cons.mp hp2 with ⟨heq, -⟩
                exact absurd heq (by decide)
              · exact hinf2
        · rw [show scanA ('}' :: rest) (some acc) =
              acc.reverse :: scanA rest none by simp [scanA, h2]]
          rw [List.mem_cons, ihn,
            causePattern_infix_word_close acc.reverse rest ww]
          constructor
          · intro h
            rcases h with h | h
            · exact Or.inl h.symm
            · exact Or.inr h
          · intro h
            rcases h with h | h
            · exact Or.inl h.symm
            · exact Or.inr h
      · by_cases h3 : c = '{'
        · subst h3
          rw [show scanA ('{' :: rest) (some acc) = scanA rest (some []) by
            simp [scanA]]
          rw [ihs [] (by simp)]
          simp only [List.reverse_nil, List.nil_append]
          constructor
          · intro h
            exact List.infix_cons
              ((causePattern_infix_append_word acc.reverse ww ('{' :: rest)).mpr h)
          · intro h
            rcases List.infix_cons_iff.mp h with hpre | hinf
            · have hp : ('{' :: (causeChars ++ ['}'])) <+:
                  ('{' :: (acc.reverse ++ '{' :: rest)) := hpre
              rcases List.cons_prefix_cons.mp hp with ⟨-, hrest⟩
              exact absurd hrest
                (no_prefix_across_stop causeChars acc.reverse '{' rest
                  causeChars_allWord ww isWordChar_lbrace (by decide))
            · exact (causePattern_infix_append_word acc.reverse ww ('{' :: rest)).mp hinf
        · by_cases h4 : isWordChar c = true
          · rw [show scanA (c :: rest) (some acc) = scanA rest (some (c :: acc)) by
              simp [scanA, h1, h3, h4]]
            rw [ihs (c :: acc) (by
              intro x hx
              rcases List.mem_cons.mp hx with h | h
              · subst h; exact h4
              · exact hacc x h)]
            rw [List.reverse_cons, List.append_assoc]
            simp
          · have h4' : isWordChar c = false := by simpa using h4
            rw [show scanA (c :: rest) (some acc) = scanA rest none by
              simp [scanA, h1, h3, h4']]
            rw [ihn]
            constructor
            · intro h
              exact List.infix_cons
                ((causePattern_infix_append_word acc.reverse ww (c :: rest)).mpr
                  (List.infix_cons h))
            · intro h
              rcases List.infix_cons_iff.mp h with hpre | hinf
              · have hp : ('{' :: (causeChars ++ ['}'])) <+:
                    ('{' :: (acc.reverse ++ c :: rest)) := hpre
                rcases List.cons_prefix_cons.mp hp with ⟨-, hrest⟩
                exact absurd hrest
                  (no_prefix_across_stop causeChars acc.reverse c rest
                    causeChars_allWord ww h4' h1)
              · have h5 :=
                  (causePattern_infix_append_word acc.reverse ww (c :: rest)).mp hinf
                rcases List.infix_cons_iff.mp h5 with hpre2 | hinf2
                · have hp2 : ('{' :: (causeChars ++ ['}'])) <+: (c :: rest) := hpre2
                  rcases List.cons_prefix_cons.mp hp2 with ⟨heq, -⟩
                  exact absurd heq.symm h3
                · exact hinf2

/-- Construction never throws except for reading `opts.cause` off a
`null` third argument; in particular every call with the options
argument absent or an object yields an instance. -/
theorem newInstance_isOk (f : ErrorFamily) (a1 a2 a3 : JSArg)
    (h : a3 ≠ JSArg.null) :
    (f.newInstance a1 a2 a3).isOk = true := by
  unfold ErrorFamily.newInstance
  cases a1 <;> cases a2 <;> cases a3 <;>
    first
      | rfl
      | (exact absurd rfl h)
      | (dsimp only; split <;> rfl)

/-- C2: `createErrorClass` fails (with its definition error) at
factory-build time exactly when the message template contains the
placeholder `{cause}`; no family is produced in that case, and no
other input — malformed codes, missing placeholders, unknown parameter
keys — raises at build time, nor does construction raise for the
accepted option shapes. -/
theorem definitionError_iff_cause_placeholder (d : ErrorDefinition) :
    ((createErrorClass d).isOk = true ↔ ¬ ("{cause}".data <:+: d.message.data)) ∧
    (∀ (f : ErrorFamily) (a1 a2 : JSArg),
      (f.newInstance a1 a2 JSArg.undefined).isOk = true ∧
      ∀ o3 : JSObj, (f.newInstance a1 a2 (JSArg.object o3)).isOk = true) := by
  constructor
  · have hpat : "{cause}".data = causePattern := by decide
    have hres : reservedInMessage d.message = true ↔
        causePattern <:+: d.message.data := by
      unfold reservedInMessage scanPlaceholders
      rw [decide_eq_true_eq]
      exact (scanA_cause_iff d.message.data).1
    rw [hpat]
    by_cases h : causePattern <:+: d.message.data
    · have h1 : reservedInMessage d.message = true := hres.mpr h
      unfold createErrorClass
      rw [if_pos h1]
      constructor
      · intro hh; simp [Except.isOk, Except.toBool] at hh
      · intro hh; exact absurd h hh
    · have h1 : reservedInMessage d.message = true → False := fun h2 => h (hres.mp h2)
      unfold createErrorClass
      rw [if_neg h1]
      constructor
      · intro _; exact h
      · intro _; rfl
  · intro f a1 a2
    exact ⟨newInstance_isOk f a1 a2 JSArg.undefined (by simp),
      fun o3 => newInstance_isOk f a1 a2 (JSArg.object o3) (by simp)⟩

theorem jsToLower_eq_underscore (c : Char) : jsToLower c = '_' ↔ c = '_' := by
  unfold jsToLower
  split <;> simp_all

theorem jsSplit_ne_nil (l : List Char) : jsSplit l ≠ [] := by
  cases l with
  | nil => simp [jsSplit]
  | cons c rest =>
    simp only [jsSplit]
    split
    · simp
    · split <;> simp

/-- Lowercasing commutes with splitting on `_` (lowercasing moves no
character onto or off the underscore). -/
theorem jsSplit_map_lower (l : List Char) :
    jsSplit (l.map jsToLower) = (jsSplit l).map (List.map jsToLower) := by
  induction l with
  | nil => simp [jsSplit]
  | cons c rest ih =>
    simp only [List.map_cons]
    by_cases hc : c = '_'
    · subst hc
      rw [show jsToLower '_' = '_' by decide]
      rw [show jsSplit ('_' :: List.map jsToLower rest) =
          [] :: jsSplit (List.map jsToLower rest) by simp [jsSplit]]
      rw [show jsSplit ('_' :: rest) = [] :: jsSplit rest by simp [jsSplit]]
      simp [ih]
    · have hc2 : ¬ jsToLower c = '_' := fun h => hc ((jsToLower_eq_underscore c).mp h)
      obtain ⟨w, ws, hw⟩ : ∃ w ws, jsSplit rest = w :: ws := by
        cases hsp : jsSplit rest with
        | nil => exact absurd hsp (jsSplit_ne_nil rest)
        | cons w ws => exact ⟨w, ws, rfl⟩
      rw [show jsSplit (jsToLower c :: List.map jsToLower rest) =
          (match jsSplit (List.map jsToLower rest) with
           | [] => [[jsToLower c]]
           | w :: ws => (jsToLower c :: w) :: ws) by simp [jsSplit, hc2]]
      rw [show jsSplit (c :: rest) =
          (match jsSplit rest with
           | [] => [[c]]
           | w :: ws => (c :: w) :: ws) by simp [jsSplit, hc]]
      rw [ih, hw]
      simp

/-- The source's `toPascalCase` (lowercase first, then split) agrees with the
spec's wording (split first, then lowercase each segment). -/
theorem toPascalCase_eq_spec (s : String) : toPascalCase s = pascalCaseSpec s := by
  unfold toPascalCase pascalCaseSpec
  rw [jsSplit_map_lower s.data, List.map_map]
  simp [Function.comp_def]

/-- A character allowed in a code by the spec's input constraint:
uppercase ASCII letter, digit, or underscore. -/
def validCodeChar (c : Char) : Bool :=
  c.isUpper || c.isDigit || c = '_'

/-- C7: on codes of uppercase letters, digits and underscores, the
derived name is exactly the pure function the spec describes (split on
underscore, lowercase each segment, uppercase its first character,
concatenate), and the five spec examples hold. -/
theorem toPascalCase_spec (code : String)
    (_h : ∀ c ∈ code.data, validCodeChar c = true) :
    toPascalCase code = pascalCaseSpec code ∧
    toPascalCase ("NOT_FOUND") = "NotFound" ∧
    toPascalCase ("UNAUTHORIZED") = "Unauthorized" ∧
    toPascalCase ("VALIDATION_ERROR") = "ValidationError" ∧
    toPascalCase ("INTERNAL_SERVER_ERROR") = "InternalServerError" ∧
    toPascalCase ("BAD_REQUEST") = "BadRequest" :=
  ⟨toPascalCase_eq_spec code, by decide, by decide, by decide, by decide, by decide⟩

/-- Witness for C7 at the concrete code `NOT_FOUND`. -/
theorem toPascalCase_spec_witness :
    (∀ c ∈ ("NOT_FOUND" : String).data, validCodeChar c = true) ∧
    toPascalCase ("NOT_FOUND") = pascalCaseSpec ("NOT_FOUND") :=
  ⟨by decide, (toPascalCase_spec ("NOT_FOUND") (by decide)).1⟩

/-- C4 (code bug): building `NOT_FOUND` succeeds and the returned
class itself exposes the static `name` (set by
`Object.defineProperty(ErrorKlass, "name", ...)`) — but no static
`code` is ever defined on the class; `code` is an instance field only,
although the repository's own test suite asserts
`NotFound.code === "NOT_FOUND"` ("exposes code as a static property on
the class"). -/
theorem static_code_absent :
    createErrorClass ⟨"NOT_FOUND", "Not found", 404⟩ =
      Except.ok (mkErrorFamily ⟨"NOT_FOUND", "Not found", 404⟩) ∧
    objLookup (mkErrorFamily ⟨"NOT_FOUND", "Not found", 404⟩).staticProps ("name") =
      some ("NotFound") ∧
    objLookup (mkErrorFamily ⟨"NOT_FOUND", "Not found", 404⟩).staticProps ("code") =
      none := by
  refine ⟨?_, ?_, ?_⟩ <;> decide

/-- C8 counterexample: a plain object (not an `Error` instance) with a
string-typed `code` and a number-typed `status`.  The claim requires
the predicate to return true for every such value regardless of
origin, but `isCustomError` first requires `error instanceof Error`
and returns false here (as the repo's own test "returns false for
non-error objects" confirms). -/
theorem isCustomError_plain_object_counterexample :
    objLookup (JSObjectV.mk false
      [("code", JSVal.string ("TEST")), ("status", JSVal.number 500)]).props ("code") =
      some (JSVal.string ("TEST")) ∧
    objLookup (JSObjectV.mk false
      [("code", JSVal.string ("TEST")), ("status", JSVal.number 500)]).props ("status") =
      some (JSVal.number 500) ∧
    isCustomError (JSEntity.object (JSObjectV.mk false
      [("code", JSVal.string ("TEST")), ("status", JSVal.number 500)])) = false := by
  refine ⟨?_, ?_, ?_⟩ <;> decide

/-- C8 (amended): `isCustomError` returns true exactly for `Error`
instances carrying a string-typed `code` and a number-typed `status`
(regardless of which family, if any, produced them — instances of
every family qualify); it returns false for non-`Error` values, for
missing or mistyped attributes, and for `null`/`undefined`. -/
theorem isCustomError_characterization :
    (∀ e : JSEntity, isCustomError e = true ↔
      ∃ o, e = JSEntity.object o ∧ o.isError = true ∧
        (∃ s, objLookup o.props ("code") = some (JSVal.string s)) ∧
        (∃ n, objLookup o.props ("status") = some (JSVal.number n))) ∧
    isCustomError JSEntity.null = false ∧
    isCustomError JSEntity.undefined = false ∧
    (∀ i : ErrorInstance, isCustomError i.toEntity = true) := by
  refine ⟨?_, by decide, by decide, fun i => rfl⟩
  intro e
  cases e with
  | object o =>
    simp only [isCustomError, Bool.and_eq_true]
    constructor
    · rintro ⟨⟨he, hcode⟩, hstatus⟩
      refine ⟨o, rfl, he, ?_, ?_⟩
      · rcases hkc : objLookup o.props ("code") with - | vc
        · rw [hkc] at hcode; simp at hcode
        · rw [hkc] at hcode
          cases vc <;> simp at hcode
          case string s => exact ⟨s, rfl⟩
      · rcases hks : objLookup o.props ("status") with - | vs
        · rw [hks] at hstatus; simp at hstatus
        · rw [hks] at hstatus
          cases vs <;> simp at hstatus
          case number n => exact ⟨n, rfl⟩
    · rintro ⟨o', heq, he, ⟨s, hs⟩, ⟨n, hn⟩⟩
      injection heq with heq'
      subst heq'
      refine ⟨⟨he, ?_⟩, ?_⟩
      · rw [hs]
      · rw [hn]
  | undefined => simp [isCustomError]
  | null => simp [isCustomError]
  | boolean b => simp [isCustomError]
  | number n => simp [isCustomError]
  | string s => simp [isCustomError]

theorem objLookup_objInsert {α : Type} (l : List (String × α)) (k c : String) (v : α) :
    objLookup (objInsert l k v) c = if k = c then some v else objLookup l c := by
  induction l with
  | nil => simp [objInsert, objLookup]
  | cons p rest ih =>
    obtain ⟨k', v'⟩ := p
    by_cases h1 : k' = k
    · subst h1
      simp only [objInsert, if_pos rfl]
      by_cases h2 : k' = c
      · simp [objLookup, h2]
      · simp [objLookup, h2]
    · simp only [objInsert, if_neg h1]
      by_cases h2 : k' = c
      · have h3 : ¬ k = c := fun hh => h1 (h2.trans hh.symm)
        simp [objLookup, h2, h3]
      · simp [objLookup, h2, ih]

/-- One step of the batch loop: a successful build folds the new class
into the accumulator, and the final lookup is decided by the last
matching definition, falling back to the accumulator. -/
theorem createClassesKeyed_lookup (key : ErrorDefinition → String)
    (defs : List ErrorDefinition) :
    ∀ (acc : List (String × ErrorFamily)) (c : String),
    (∀ d ∈ defs, reservedInMessage d.message = false) →
    (createClassesKeyed key acc defs).map (fun m => objLookup m c) =
      Except.ok (match lastWith key c defs with
        | some d => some (mkErrorFamily d)
        | none => objLookup acc c) := by
  induction defs with
  | nil => intro acc c _; rfl
  | cons d rest ih =>
    intro acc c hv
    have hd : reservedInMessage d.message = false := hv d (List.mem_cons_self d rest)
    have hcc : createErrorClass d = Except.ok (mkErrorFamily d) := by
      unfold createErrorClass
      rw [if_neg (by simp [hd])]
    simp only [createClassesKeyed, hcc, Bind.bind, Except.bind]
    rw [ih (objInsert acc (key d) (mkErrorFamily d)) c
      (fun x hx => hv x (List.mem_cons_of_mem d hx))]
    simp only [lastWith]
    cases hlw : lastWith key c rest with
    | some d' => rfl
    | none =>
      rw [objLookup_objInsert]
      by_cases h2 : key d = c
      · rw [if_pos h2, if_pos h2]
      · rw [if_neg h2, if_neg h2]

/-- C9: for any ordered list of valid definitions, batch construction
builds one family per definition; the code-keyed mapping
(`createErrorClasses`) and the spec-modelled name-keyed variant each
return, at every key, the family built from the last definition
bearing that key (duplicates overwrite left-to-right). -/
theorem createErrorClasses_last_wins (defs : List ErrorDefinition) (c : String)
    (h : ∀ d ∈ defs, reservedInMessage d.message = false) :
    ((createErrorClasses defs).map (fun m => objLookup m c) =
      Except.ok ((lastWith (fun d => d.code) c defs).map mkErrorFamily)) ∧
    ((createErrorClassesByName defs).map (fun m => objLookup m c) =
      Except.ok ((lastWith (fun d => toPascalCase d.code) c defs).map mkErrorFamily)) := by
  constructor
  · rw [createErrorClasses, createClassesKeyed_lookup (fun d => d.code) defs [] c h]
    cases lastWith (fun d => d.code) c defs <;> rfl
  · rw [createErrorClassesByName,
      createClassesKeyed_lookup (fun d => toPascalCase d.code) defs [] c h]
    cases lastWith (fun d => toPascalCase d.code) c defs <;> rfl

/-- Witness for C9: two definitions sharing the code `DUP_KEY`; the
returned entry (under either keying) is the family of the second. -/
theorem createErrorClasses_last_wins_witness :
    (∀ d ∈ [ErrorDefinition.mk ("DUP_KEY") ("first") 1,
            ErrorDefinition.mk ("DUP_KEY") ("second") 2],
      reservedInMessage d.message = false) ∧
    ((createErrorClasses [ErrorDefinition.mk ("DUP_KEY") ("first") 1,
        ErrorDefinition.mk ("DUP_KEY") ("second") 2]).map
      (fun m => objLookup m ("DUP_KEY")) =
      Except.ok (some (mkErrorFamily (ErrorDefinition.mk ("DUP_KEY") ("second") 2)))) := by
  refine ⟨by decide, ?_⟩
  rw [(createErrorClasses_last_wins
    [ErrorDefinition.mk ("DUP_KEY") ("first") 1, ErrorDefinition.mk ("DUP_KEY") ("second") 2]
    ("DUP_KEY") (by decide)).1]
  decide

/-- C1 (amended): the options-iff-contains-cause disambiguation rule
governs only two-argument calls whose first argument is a string (and
no third argument is passed): there, a second-position object
containing `cause` has its cause extracted and its remaining keys (if
any) used as parameters, and one without `cause` is the parameter set.
In the params-first form the second-position object is always read
only for its `cause` property (remaining keys ignored), and in the
three-argument form the second-position object is always the
parameter set, the cause coming from the third argument. -/
theorem constructor_second_arg_rule (f : ErrorFamily) (s : String)
    (o o1 o2 o3 : JSObj) (a3 : JSArg) :
    (f.newInstance (JSArg.string s) (JSArg.object o) JSArg.undefined =
      Except.ok (
        if jsHas o causeKey then
          { message :=
              if (o.pairs.filter (fun p => p.1 ≠ causeKey)).isEmpty then s
              else interpolate s ⟨o.pairs.filter (fun p => p.1 ≠ causeKey)⟩
          , causeProp :=
              if jsGetProp o causeKey = JSVal.undefined then none
              else some (jsGetProp o causeKey)
          , code := f.defn.code, status := f.defn.status
          , name := toPascalCase f.defn.code }
        else
          { message := interpolate s o, causeProp := none
          , code := f.defn.code, status := f.defn.status
          , name := toPascalCase f.defn.code })) ∧
    (f.newInstance (JSArg.object o1) (JSArg.object o2) a3 =
      Except.ok
        { message := interpolate f.defn.message o1
        , causeProp :=
            if jsGetProp o2 causeKey = JSVal.undefined then none
            else some (jsGetProp o2 causeKey)
        , code := f.defn.code, status := f.defn.status
        , name := toPascalCase f.defn.code }) ∧
    (f.newInstance (JSArg.string s) (JSArg.object o2) (JSArg.object o3) =
      Except.ok
        { message := interpolate s o2
        , causeProp :=
            if jsGetProp o3 causeKey = JSVal.undefined then none
            else some (jsGetProp o3 causeKey)
        , code := f.defn.code, status := f.defn.status
        , name := toPascalCase f.defn.code }) := by
  refine ⟨?_, rfl, rfl⟩
  unfold ErrorFamily.newInstance
  dsimp only
  by_cases h : jsHas o causeKey = true
  · rw [if_pos h, if_pos h]
    by_cases h2 : (o.pairs.filter (fun p => p.1 ≠ causeKey)).isEmpty = true
    · rw [if_pos h2, if_pos h2]; rfl
    · rw [if_neg h2, if_neg h2]; rfl
  · rw [if_neg h, if_neg h]; rfl

/-- C1 counterexample: the three-argument call
`new Err("{cause} hi", {cause: "A"}, {})`.  The second-position object
contains the key `cause`, so the claimed rule would resolve it as an
options value (cause `"A"` extracted, no remaining parameter keys, the
custom message left verbatim).  The code instead uses it as the
parameter set: the message interpolates to `"A hi"` and the instance
has no cause. -/
theorem constructor_second_arg_rule_counterexample :
    jsHas ⟨[("cause", JSVal.string ("A"))]⟩ causeKey = true ∧
    (mkErrorFamily ⟨"ERR", "default", 500⟩).newInstance
      (JSArg.string ("{cause} hi"))
      (JSArg.object ⟨[("cause", JSVal.string ("A"))]⟩)
      (JSArg.object ⟨[]⟩) =
      Except.ok ⟨"A hi", none, "ERR", 500, "Err"⟩ := by
  refine ⟨?_, ?_⟩ <;> decide

/-- C3 (amended): a resolved parameter set containing the literal key
`cause` is accepted, not rejected: construction succeeds for every
parameter object (including ones carrying a `cause` key) in the
params-first and three-argument forms, and in the three-argument form
the key even participates in interpolation like any other
parameter. -/
theorem cause_param_key_accepted (f : ErrorFamily) (o o3 : JSObj) (s : String) :
    (f.newInstance (JSArg.object o) JSArg.undefined JSArg.undefined).isOk = true ∧
    (f.newInstance (JSArg.string s) (JSArg.object o) (JSArg.object o3)).isOk = true ∧
    (f.newInstance (JSArg.string ("{cause} occurred"))
      (JSArg.object ⟨[("cause", JSVal.string ("X"))]⟩)
      (JSArg.object ⟨[]⟩)).map (fun i => i.message) = Except.ok ("X occurred") :=
  ⟨rfl, rfl, rfl⟩

/-- C3 counterexample: the params-first call
`new Err({x: "hi", cause: "boom"})`, whose resolved parameter set
contains the literal key `cause`.  The claim requires construction to
reject it with an error; the code instead returns an instance (the
`cause` key is silently kept in the parameter set and the instance has
no cause). -/
theorem cause_param_key_no_reject_counterexample :
    (mkErrorFamily ⟨"SOME_CODE", "{x} happened", 500⟩).newInstance
      (JSArg.object ⟨[("x", JSVal.string ("hi")), ("cause", JSVal.string ("boom"))]⟩)
      JSArg.undefined JSArg.undefined =
      Except.ok ⟨"hi happened", none, "SOME_CODE", 500, "SomeCode"⟩ := by decide

/-- C6 (amended): the cause round-trips exactly for every supplied
value other than `undefined` — including the falsy `0`, `false`, `""`
and `null` — in each cause-accepting call shape, and the instance's
cause property is present iff such a value was supplied; with no
options, or with an explicitly `undefined` cause, the instance's cause
is absent (reads as `undefined`). -/
theorem cause_roundtrip (f : ErrorFamily) (v : JSVal) (s : String) (o : JSObj) :
    ((f.newInstance (JSArg.string s) (JSArg.object ⟨[("cause", v)]⟩)
        JSArg.undefined).map (fun i => i.causeProp) =
      Except.ok (if v = JSVal.undefined then none else some v)) ∧
    ((f.newInstance (JSArg.object o) (JSArg.object ⟨[("cause", v)]⟩)
        JSArg.undefined).map (fun i => i.causeProp) =
      Except.ok (if v = JSVal.undefined then none else some v)) ∧
    ((f.newInstance (JSArg.string s) (JSArg.object o)
        (JSArg.object ⟨[("cause", v)]⟩)).map (fun i => i.causeProp) =
      Except.ok (if v = JSVal.undefined then none else some v)) ∧
    ((f.newInstance (JSArg.string s) JSArg.undefined JSArg.undefined).map
        (fun i => i.causeProp) = Except.ok none) ∧
    ((f.newInstance (JSArg.object o) JSArg.undefined JSArg.undefined).map
        (fun i => i.causeProp) = Except.ok none) ∧
    ((f.newInstance JSArg.undefined JSArg.undefined JSArg.undefined).map
        (fun i => i.causeProp) = Except.ok none) :=
  ⟨rfl, rfl, rfl, rfl, rfl, rfl⟩

/-- C6 counterexample: explicitly supplying `{cause: undefined}`.  The
options object contains the `cause` key (`"cause" in opts` is true),
yet the constructed instance carries no cause property — the code
passes `undefined` options to `super` whenever the extracted cause is
`undefined` — refuting "present iff explicitly supplied" (and the
spec's "only true absence yields an undefined cause"). -/
theorem cause_undefined_counterexample :
    jsHas ⟨[("cause", JSVal.undefined)]⟩ causeKey = true ∧
    (mkErrorFamily ⟨"WRAP", "Wrapped", 500⟩).newInstance
      (JSArg.string ("msg")) (JSArg.object ⟨[("cause", JSVal.undefined)]⟩)
      JSArg.undefined =
      Except.ok ⟨"msg", none, "WRAP", 500, "Wrap"⟩ := by
  refine ⟨?_, ?_⟩ <;> decide

theorem objLookup_liftObj (m : List (String × String)) (k : String) :
    objLookup (liftObj m).pairs k = (objLookup m k).map JSVal.string := by
  unfold liftObj
  induction m with
  | nil => rfl
  | cons p rest ih =>
    obtain ⟨k', v⟩ := p
    simp only [List.map_cons, objLookup]
    by_cases h : k' = k
    · simp [h]
    · simp [h, ih]

/-- On templates whose placeholder names avoid the inherited
properties of a plain object, the source's interpolation over the JS
object agrees with the spec-worded own-key interpolation. -/
theorem interpA_own (m : List (String × String)) :
    ∀ (l : List Char) (st : Option (List Char)),
    (∀ w ∈ scanA l st, objLookup protoProps w.asString = none) →
    interpA (liftObj m) l st = interpOwnA m l st := by
  intro l
  induction l with
  | nil => intro st _; cases st <;> rfl
  | cons c rest ih =>
    intro st hpr
    cases st with
    | none =>
      by_cases hc : c = '{'
      · subst hc
        rw [show interpA (liftObj m) ('{' :: rest) none =
            interpA (liftObj m) rest (some []) by simp [interpA]]
        rw [show interpOwnA m ('{' :: rest) none =
            interpOwnA m rest (some []) by simp [interpOwnA]]
        refine ih (some []) ?_
        intro w hw
        refine hpr w ?_
        rw [show scanA ('{' :: rest) none = scanA rest (some []) by simp [scanA]]
        exact hw
      · rw [show interpA (liftObj m) (c :: rest) none =
            c :: interpA (liftObj m) rest none by simp [interpA, hc]]
        rw [show interpOwnA m (c :: rest) none =
            c :: interpOwnA m rest none by simp [interpOwnA, hc]]
        rw [ih none (by
          intro w hw
          refine hpr w ?_
          rw [show scanA (c :: rest) none = scanA rest none by simp [scanA, hc]]
          exact hw)]
    | some acc =>
      by_cases h1 : c = '}'
      · subst h1
        by_cases h2 : acc = ([] : List Char)
        · subst h2
          rw [show interpA (liftObj m) ('}' :: rest) (some []) =
              '{' :: '}' :: interpA (liftObj m) rest none by simp [interpA]]
          rw [show interpOwnA m ('}' :: rest) (some []) =
              '{' :: '}' :: interpOwnA m rest none by simp [interpOwnA]]
          rw [ih none (by
            intro w hw
            refine hpr w ?_
            rw [show scanA ('}' :: rest) (some []) = scanA rest none by simp [scanA]]
            exact hw)]
        · have hmem : acc.reverse ∈ scanA ('}' :: rest) (some acc) := by
            rw [show scanA ('}' :: rest) (some acc) =
                acc.reverse :: scanA rest none by simp [scanA, h2]]
            exact List.mem_cons_self _ _
          have hproto : objLookup protoProps acc.reverse.asString = none :=
            hpr acc.reverse hmem
          have htail : ∀ w ∈ scanA rest none,
              objLookup protoProps w.asString = none := by
            intro w hw
            refine hpr w ?_
            rw [show scanA ('}' :: rest) (some acc) =
                acc.reverse :: scanA rest none by simp [scanA, h2]]
            exact List.mem_cons_of_mem _ hw
          rw [show interpA (liftObj m) ('}' :: rest) (some acc) =
              (if jsHas (liftObj m) acc.reverse.asString then
                (jsToString (jsGetProp (liftObj m) acc.reverse.asString)).data ++
                  interpA (liftObj m) rest none
              else '{' :: acc.reverse ++ '}' :: interpA (liftObj m) rest none)
            by simp [interpA, h2]]
          rw [show interpOwnA m ('}' :: rest) (some acc) =
              (match objLookup m acc.reverse.asString with
               | some v => v.data ++ interpOwnA m rest none
               | none => '{' :: acc.reverse ++ '}' :: interpOwnA m rest none)
            by simp [interpOwnA, h2]]
          cases hm : objLookup m acc.reverse.asString with
          | some v =>
            have hhas : jsHas (liftObj m) acc.reverse.asString = true := by
              unfold jsHas
              rw [objLookup_liftObj, hm, hproto]
              rfl
            have hgp : jsGetProp (liftObj m) acc.reverse.asString =
                JSVal.string v := by
              unfold jsGetProp
              rw [objLookup_liftObj, hm]
              rfl
            rw [if_pos hhas, hgp, ih none htail]
            rfl
          | none =>
            have hhas : jsHas (liftObj m) acc.reverse.asString = false := by
              unfold jsHas
              rw [objLookup_liftObj, hm, hproto]
              rfl
            rw [if_neg (by rw [hhas]; exact Bool.false_ne_true), ih none htail]
      · by_cases h3 : c = '{'
        · subst h3
          rw [show interpA (liftObj m) ('{' :: rest) (some acc) =
              '{' :: acc.reverse ++ interpA (liftObj m) rest (some []) by
            simp [interpA]]
          rw [show interpOwnA m ('{' :: rest) (some acc) =
              '{' :: acc.reverse ++ interpOwnA m rest (some []) by
            simp [interpOwnA]]
          rw [ih (some []) (by
            intro w hw
            refine hpr w ?_
            rw [show scanA ('{' :: rest) (some acc) = scanA rest (some []) by
              simp [scanA]]
            exact hw)]
        · by_cases h4 : isWordChar c = true
          · rw [show interpA (liftObj m) (c :: rest) (some acc) =
                interpA (liftObj m) rest (some (c :: acc)) by
              simp [interpA, h1, h3, h4]]
            rw [show interpOwnA m (c :: rest) (some acc) =
                interpOwnA m rest (some (c :: acc)) by
              simp [interpOwnA, h1, h3, h4]]
            refine ih (some (c :: acc)) ?_
            intro w hw
            refine hpr w ?_
            rw [show scanA (c :: rest) (some acc) = scanA rest (some (c :: acc)) by
              simp [scanA, h1, h3, h4]]
            exact hw
          · have h4' : isWordChar c = false := by simpa using h4
            rw [show interpA (liftObj m) (c :: rest) (some acc) =
                '{' :: acc.reverse ++ c :: interpA (liftObj m) rest none by
              simp [interpA, h1, h3, h4']]
            rw [show interpOwnA m (c :: rest) (some acc) =
                '{' :: acc.reverse ++ c :: interpOwnA m rest none by
              simp [interpOwnA, h1, h3, h4']]
            rw [ih none (by
              intro w hw
              refine hpr w ?_
              rw [show scanA (c :: rest) (some acc) = scanA rest none by
                simp [scanA, h1, h3, h4']]
              exact hw)]

/-- C5 (amended): the interpolator is a pure function; on every
template none of whose placeholder names collides with an inherited
property of a plain object, it behaves exactly as the spec's
string-to-string description — each `{name}` occurrence whose name is
a key of the mapping is replaced by the mapped value, every other
occurrence is left untouched.  (A placeholder named after an inherited
property is instead substituted with the inherited value; see the
counterexample.)  In particular `"{a} and {b}"` with `{a: "hello"}`
yields `"hello and {b}"`. -/
theorem interpolate_own_keys (tpl : String) (m : List (String × String))
    (h : ∀ w ∈ scanPlaceholders tpl, objLookup protoProps w.asString = none) :
    interpolate tpl (liftObj m) = interpolateSpec tpl m ∧
    interpolate ("{a} and {b}") (liftObj [("a", "hello")]) = "hello and {b}" := by
  constructor
  · unfold interpolate interpolateSpec
    rw [interpA_own m tpl.data none h]
  · decide

/-- Witness for C5's amended statement at the spec's own example. -/
theorem interpolate_own_keys_witness :
    (∀ w ∈ scanPlaceholders ("{a} and {b}"),
      objLookup protoProps w.asString = none) ∧
    interpolate ("{a} and {b}") (liftObj [("a", "hello")]) =
      interpolateSpec ("{a} and {b}") [("a", "hello")] :=
  ⟨by decide, (interpolate_own_keys ("{a} and {b}") [("a", "hello")] (by decide)).1⟩

/-- C5 counterexample: the empty mapping has no key `toString`, yet
the occurrence `{toString}` is not left untouched — it is substituted
with the inherited `Object.prototype.toString` value — refuting "every
occurrence whose name is absent from the mapping is left untouched"
for arbitrary templates. -/
theorem interpolate_inherited_counterexample :
    interpolate ("{toString}") (liftObj []) =
      "function toString() \x7b [native code] \x7d" ∧
    interpolate ("{toString}") (liftObj []) ≠ "{toString}" := by
  refine ⟨?_, ?_⟩ <;> decide

/-- C10: `interpolate` decides key membership with the JS `in`
operator, which consults the prototype chain: a placeholder named
after an inherited property of a plain object (here `toString`) is
substituted with the inherited value even when the mapping does not
own the key, instead of being left untouched. -/
theorem interpolate_prototype_membership (o : JSObj)
    (h : objLookup o.pairs ("toString") = none) :
    jsHas o ("toString") = true ∧
    interpolate ("{toString}") o = jsToString (jsGetProp o ("toString")) ∧
    interpolate ("{toString}") o ≠ "{toString}" := by
  have hjs : jsHas o ("toString") = true := by
    unfold jsHas; rw [h]; decide
  have hget : jsGetProp o ("toString") =
      JSVal.function ("function toString() \x7b [native code] \x7d") := by
    unfold jsGetProp; rw [h]; rfl
  have hmain : interpolate ("{toString}") o =
      jsToString (jsGetProp o ("toString")) := by
    unfold interpolate
    simp +decide [interpA, isWordChar, hjs, List.asString]
  refine ⟨hjs, hmain, ?_⟩
  rw [hmain, hget]
  decide

/-- Witness for C10 at the empty parameter object. -/
theorem interpolate_prototype_membership_witness :
    objLookup (JSObj.mk []).pairs ("toString") = none ∧
    interpolate ("{toString}") (JSObj.mk []) ≠ "{toString}" :=
  ⟨rfl, (interpolate_prototype_membership (JSObj.mk []) rfl).2.2⟩

end CustomErrorCreator
